import Mathlib

/-!
Verification development for the flow-learning-hub voice-session pipeline
and its module persistence routes.

The definitions below are shallow embeddings of the repository's code:

* `encodeSample` embeds the sample conversion of `AudioProcessor.process`
  (`src/unnamed/part_005`, the audio worklet): the JavaScript statement
  `audio[i] = Math.max(-32768, Math.min(32767, channelData[i] * 32768))`
  where `audio` is an `Int16Array`.  Storing into an `Int16Array` applies
  ECMAScript `ToInt16`: truncation toward zero followed by wrapping modulo
  2^16 into the signed range; this is modelled by `toInt16`.
* The playback scheduler (`processAudioQueue` / `queueAudio` in
  `src/unnamed/part_002`) is embedded as a state machine over rational
  times, with frames identified by their sample counts.
* The session controller (`startSession` / `stopSession` in
  `src/unnamed/part_002`) is embedded as an explicit state record with the
  async functions split at their `await` points, so that interleavings
  with concurrent calls can be expressed.
* The Express handlers of `src/server/routes/modules.ts` are embedded as
  pure functions over a list of module rows.

Numbers that are IEEE floats in the source are modelled as rationals; the
properties proved are about the exact arithmetic the source expressions
denote.
-/

namespace FlowHub

/-! ### Capture encoder (src/unnamed/part_005) -/

/-- Truncation toward zero of a rational, the integer conversion step of
ECMAScript `ToInt16`. -/
def truncQ (q : ℚ) : ℤ :=
  if 0 ≤ q then ⌊q⌋ else ⌈q⌉

/-- ECMAScript `ToInt16`: truncate toward zero, reduce modulo 2^16, and
reinterpret in the signed 16-bit range. This is what storing a number into
an `Int16Array` element performs. -/
def toInt16 (q : ℚ) : ℤ :=
  if 32768 ≤ truncQ q % 65536 then truncQ q % 65536 - 65536 else truncQ q % 65536

/-- One sample of `AudioProcessor.process`:
`Math.max(-32768, Math.min(32767, channelData[i] * 32768))` stored into an
`Int16Array` element. -/
def encodeSample (s : ℚ) : ℤ :=
  toInt16 (max (-32768) (min 32767 (s * 32768)))

/-- The whole-frame conversion loop of `AudioProcessor.process`. -/
def processFrame (channelData : List ℚ) : List ℤ :=
  channelData.map encodeSample

/-- `clamp(s, -1, 1)` as the spec writes it. -/
def clampUnit (s : ℚ) : ℚ :=
  max (-1) (min 1 s)

/-- `Math.round`: round half toward positive infinity. -/
def roundHalfUp (q : ℚ) : ℤ :=
  ⌊q + 1 / 2⌋

/-- Modelled from the spec's words (for comparison with `encodeSample`):
"the signed 16-bit value round(clamp(s, -1, 1) * 32768) saturated to the
int16 range". -/
def encodeSampleSpec (s : ℚ) : ℤ :=
  max (-32768) (min 32767 (roundHalfUp (clampUnit s * 32768)))

/-- Decoding step of the playback drain (`src/unnamed/part_002` line 193):
`channelData[i] = audioData[i] / 32768`. -/
def decodeSample (v : ℤ) : ℚ :=
  (v : ℚ) / 32768

lemma truncQ_nonneg_eq (q : ℚ) (h : 0 ≤ q) : truncQ q = ⌊q⌋ := by
  simp [truncQ, h]

lemma truncQ_neg_eq (q : ℚ) (h : ¬ 0 ≤ q) : truncQ q = ⌈q⌉ := by
  simp [truncQ, h]

/-- Truncation toward zero moves by less than one. -/
lemma abs_truncQ_sub_le (q : ℚ) : |(truncQ q : ℚ) - q| ≤ 1 := by
  rcases le_or_lt 0 q with h | h
  · rw [truncQ_nonneg_eq q h, abs_le]
    constructor
    · have := Int.lt_floor_add_one q
      linarith
    · have := Int.floor_le q
      linarith
  · rw [truncQ_neg_eq q (not_le.mpr h), abs_le]
    constructor
    · have := Int.le_ceil q
      linarith
    · have := Int.ceil_lt_add_one q
      linarith

lemma truncQ_le_of_le {q : ℚ} {n : ℤ} (h : q ≤ (n : ℚ)) : truncQ q ≤ n := by
  rcases le_or_lt 0 q with h0 | h0
  · rw [truncQ_nonneg_eq q h0]
    have : ⌊q⌋ ≤ ⌊(n : ℚ)⌋ := Int.floor_le_floor h
    simpa using this
  · rw [truncQ_neg_eq q (not_le.mpr h0)]
    exact Int.ceil_le.mpr h

lemma le_truncQ_of_le {q : ℚ} {n : ℤ} (h : (n : ℚ) ≤ q) : n ≤ truncQ q := by
  rcases le_or_lt 0 q with h0 | h0
  · rw [truncQ_nonneg_eq q h0]
    exact Int.le_floor.mpr h
  · rw [truncQ_neg_eq q (not_le.mpr h0)]
    have : (n : ℚ) ≤ (⌈q⌉ : ℤ) := le_trans h (Int.le_ceil q)
    exact_mod_cast this

/-- The clamp in the worklet keeps the value inside the int16 range, so the
`ToInt16` wrap never engages: encoding is clamp followed by truncation. -/
lemma encodeSample_eq_trunc (s : ℚ) :
    encodeSample s = truncQ (max (-32768) (min 32767 (s * 32768))) := by
  unfold encodeSample toInt16
  set y : ℚ := max (-32768) (min 32767 (s * 32768)) with hy
  have hlo : (-32768 : ℚ) ≤ y := le_max_left _ _
  have hhi : y ≤ 32767 :=
    max_le (by norm_num) (min_le_left _ _)
  have hti : truncQ y ≤ 32767 := truncQ_le_of_le (by exact_mod_cast hhi)
  have hlo' : (-32768 : ℤ) ≤ truncQ y := le_truncQ_of_le (by exact_mod_cast hlo)
  have hmod : truncQ y % 65536 = if 0 ≤ truncQ y then truncQ y else truncQ y + 65536 := by
    rcases le_or_lt 0 (truncQ y) with hz | hz
    · rw [if_pos hz]
      exact Int.emod_eq_of_lt hz (by omega)
    · rw [if_neg (not_le.mpr hz)]
      omega
  rcases le_or_lt 0 (truncQ y) with hz | hz
  · rw [if_pos hz] at hmod
    rw [hmod, if_neg (by omega : ¬ (32768 : ℤ) ≤ truncQ y)]
  · rw [if_neg (not_le.mpr hz)] at hmod
    rw [hmod, if_pos (by omega : (32768 : ℤ) ≤ truncQ y + 65536)]
    omega

lemma truncQ_intCast (n : ℤ) : truncQ (n : ℚ) = n := by
  unfold truncQ
  rcases le_or_lt 0 (n : ℚ) with h | h
  · rw [if_pos h, Int.floor_intCast]
  · rw [if_neg (not_le.mpr h), Int.ceil_intCast]

lemma clampUnit_le_one (s : ℚ) : clampUnit s ≤ 1 :=
  max_le (by norm_num) (min_le_left _ _)

lemma neg_one_le_clampUnit (s : ℚ) : -1 ≤ clampUnit s :=
  le_max_left _ _

/-- Core quantitative fact: the encoder's output is within one integer of
`32768 * clamp(s, -1, 1)`. -/
lemma encode_close_to_clamp (s : ℚ) :
    |(encodeSample s : ℚ) - 32768 * clampUnit s| ≤ 1 := by
  rw [encodeSample_eq_trunc]
  rcases le_or_lt 32767 (s * 32768) with hc | hc
  · have hymax : max (-32768 : ℚ) (min 32767 (s * 32768)) = 32767 := by
      rw [min_eq_left hc, max_eq_right (by norm_num : (-32768 : ℚ) ≤ 32767)]
    have ht : truncQ (32767 : ℚ) = 32767 := by
      have : ((32767 : ℤ) : ℚ) = (32767 : ℚ) := by norm_num
      rw [← this, truncQ_intCast]
    rw [hymax, ht]
    have hs : (32767 : ℚ) / 32768 ≤ s := by linarith
    have hcl : (32767 : ℚ) / 32768 ≤ clampUnit s := by
      have h1 : (32767 : ℚ) / 32768 ≤ min 1 s := le_min (by norm_num) hs
      exact le_trans h1 (le_max_right _ _)
    have hcu := clampUnit_le_one s
    rw [abs_le]
    constructor
    · push_cast
      linarith
    · push_cast
      linarith
  · rcases le_or_lt (s * 32768) (-32768) with hc2 | hc2
    · have hymax : max (-32768 : ℚ) (min 32767 (s * 32768)) = -32768 := by
        rw [min_eq_right (by linarith), max_eq_left (by linarith)]
      have ht : truncQ (-32768 : ℚ) = -32768 := by
        have : ((-32768 : ℤ) : ℚ) = (-32768 : ℚ) := by norm_num
        rw [← this, truncQ_intCast]
      have hcl : clampUnit s = -1 := by
        have hs : s ≤ -1 := by linarith
        unfold clampUnit
        rw [min_eq_right (by linarith), max_eq_left hs]
      rw [hymax, ht, hcl]
      norm_num
    · have hymax : max (-32768 : ℚ) (min 32767 (s * 32768)) = s * 32768 := by
        rw [min_eq_right (le_of_lt hc), max_eq_right (le_of_lt hc2)]
      have hcl : clampUnit s = s := by
        have h1 : s ≤ 1 := by nlinarith
        have h2 : -1 ≤ s := by nlinarith
        unfold clampUnit
        rw [min_eq_right h1, max_eq_right h2]
      rw [hymax, hcl]
      calc |(truncQ (s * 32768) : ℚ) - 32768 * s|
          = |(truncQ (s * 32768) : ℚ) - s * 32768| := by ring_nf
        _ ≤ 1 := abs_truncQ_sub_le (s * 32768)

/-- C4 counterexample helper value: the float sample 0.9/32768. -/
def c4Sample : ℚ := 9 / 327680

/-- C4 — the claim as stated is false: the worklet's conversion does not
round to nearest; storing into the `Int16Array` truncates toward zero.
At s = 0.9/32768 the code yields 0 while round(clamp(s,-1,1)*32768) = 1. -/
theorem capture_encoder_not_rounding :
    encodeSample c4Sample = 0 ∧ encodeSampleSpec c4Sample = 1 ∧
    encodeSample c4Sample ≠ encodeSampleSpec c4Sample := by
  have hmul : c4Sample * 32768 = 9 / 10 := by norm_num [c4Sample]
  have h1 : encodeSample c4Sample = 0 := by
    rw [encodeSample_eq_trunc, hmul,
      min_eq_right (by norm_num : (9 : ℚ) / 10 ≤ 32767),
      max_eq_right (by norm_num : (-32768 : ℚ) ≤ 9 / 10)]
    unfold truncQ
    rw [if_pos (by norm_num : (0 : ℚ) ≤ 9 / 10)]
    norm_num
  have h2 : encodeSampleSpec c4Sample = 1 := by
    have hcl : clampUnit c4Sample = c4Sample := by
      unfold clampUnit
      rw [min_eq_right (by norm_num [c4Sample] : c4Sample ≤ 1),
        max_eq_right (by norm_num [c4Sample] : (-1 : ℚ) ≤ c4Sample)]
    unfold encodeSampleSpec
    rw [hcl, hmul]
    have hr : roundHalfUp (9 / 10) = 1 := by
      unfold roundHalfUp
      norm_num
    rw [hr]
    norm_num
  exact ⟨h1, h2, by rw [h1, h2]; decide⟩

/-- C4 (amended) — for every 32-bit float input sample s, the Capture
Encoder produces the signed 16-bit value obtained by clamping s·32768 to
[-32768, 32767] and then truncating toward zero (not rounding); in
particular every sample ≥ 1.0 encodes to exactly 32767 and every sample
≤ -1.0 encodes to exactly -32768, saturating and never wrapping (the
result always lies in the int16 range). -/
theorem capture_encoding_truncating_saturating :
    (∀ s : ℚ, encodeSample s = truncQ (max (-32768) (min 32767 (s * 32768)))) ∧
    (∀ s : ℚ, 1 ≤ s → encodeSample s = 32767) ∧
    (∀ s : ℚ, s ≤ -1 → encodeSample s = -32768) ∧
    (∀ s : ℚ, -32768 ≤ encodeSample s ∧ encodeSample s ≤ 32767) := by
  have hhi : ∀ s : ℚ, 1 ≤ s → encodeSample s = 32767 := by
    intro s h
    rw [encodeSample_eq_trunc]
    have h1 : (32767 : ℚ) ≤ s * 32768 := by nlinarith
    rw [min_eq_left h1, max_eq_right (by norm_num : (-32768 : ℚ) ≤ 32767)]
    have : ((32767 : ℤ) : ℚ) = (32767 : ℚ) := by norm_num
    rw [← this, truncQ_intCast]
  have hlo : ∀ s : ℚ, s ≤ -1 → encodeSample s = -32768 := by
    intro s h
    rw [encodeSample_eq_trunc]
    have h1 : s * 32768 ≤ -32768 := by nlinarith
    rw [min_eq_right (by linarith), max_eq_left h1]
    have : ((-32768 : ℤ) : ℚ) = (-32768 : ℚ) := by norm_num
    rw [← this, truncQ_intCast]
  refine ⟨fun s => encodeSample_eq_trunc s, hhi, hlo, fun s => ?_⟩
  rw [encodeSample_eq_trunc]
  constructor
  · exact le_truncQ_of_le (by push_cast; exact le_max_left _ _)
  · exact truncQ_le_of_le
      (by push_cast; exact max_le (by norm_num) (min_le_left _ _))

/-- Witness for C4's amended theorem at concrete saturating inputs. -/
theorem capture_encoding_truncating_saturating_witness :
    encodeSample 2 = 32767 ∧ encodeSample (-3) = -32768 :=
  ⟨capture_encoding_truncating_saturating.2.1 2 (by norm_num),
   capture_encoding_truncating_saturating.2.2.1 (-3) (by norm_num)⟩

/-- C5 — encode/decode round-trip: for every float sample s, encoding with
the Capture Encoder (`AudioProcessor.process`) and decoding back to float
by dividing by 32768 (as `processAudioQueue` does) lands within one
quantization step (1/32768) of clamp(s, -1, 1). -/
theorem encode_decode_roundtrip (s : ℚ) :
    |decodeSample (encodeSample s) - clampUnit s| ≤ 1 / 32768 := by
  have key := encode_close_to_clamp s
  have hrw : decodeSample (encodeSample s) - clampUnit s =
      ((encodeSample s : ℚ) - 32768 * clampUnit s) / 32768 := by
    unfold decodeSample
    ring
  rw [hrw, abs_div, abs_of_pos (by norm_num : (0 : ℚ) < 32768)]
  rw [div_le_div_iff₀ (by norm_num) (by norm_num)]
  linarith

/-! ### Playback scheduler (src/unnamed/part_002, lines 178-228)

`processAudioQueue` drains `audioQueueRef` against the playback context's
clock.  Frames are identified by their sample counts; times are rationals
(seconds).  The body of the `while` loop has no `await`, so one drain pass
is a single atomic step of the event loop and is embedded as the
structurally recursive `drainLoop`. -/

/-- `const SAMPLE_RATE = 16000` (src/unnamed/part_002, line 122). -/
def SAMPLE_RATE : ℚ := 16000

/-- `buffer.duration` of a frame of `n` samples at 16 kHz. -/
def frameDuration (n : ℕ) : ℚ := (n : ℚ) / SAMPLE_RATE

/-- Scheduler state: the pending frame queue (`audioQueueRef`) and the
scheduling clock (`nextPlayTimeRef`). -/
structure SchedState where
  queue : List ℕ
  nextPlayTime : ℚ
  deriving Repr, DecidableEq

/-- The `while` loop of `processAudioQueue`: `now` is the `currentTime`
captured once at the top of the pass.  Returns the `(startTime, duration)`
pairs passed to `source.start`, the final `nextPlayTime`, and the frames
left in the queue.  The look-ahead test
`if (nextPlayTimeRef.current > currentTime + 0.2) break` runs after the
frame has been scheduled and the clock advanced. -/
def drainLoop (now : ℚ) : ℚ → List ℕ → List (ℚ × ℚ) × ℚ × List ℕ
  | npt, [] => ([], npt, [])
  | npt, f :: rest =>
    let start := max now npt
    let dur := frameDuration f
    let npt2 := start + dur
    if now + 1 / 5 < npt2 then
      ([(start, dur)], npt2, rest)
    else
      let r := drainLoop now npt2 rest
      ((start, dur) :: r.1, r.2.1, r.2.2)

/-- Result of one `processAudioQueue` invocation: scheduled segments, new
scheduler state, and the delay of the `setTimeout(() => processAudioQueue(), 100)`
rescheduling call when frames remain. -/
structure DrainResult where
  scheduled : List (ℚ × ℚ)
  state : SchedState
  redrainDelayMs : Option ℕ
  deriving Repr, DecidableEq

/-- `processAudioQueue` (lines 178-218).  `hasContext` is
`playbackContextRef.current !== null` and `isProcessing` is
`isProcessingRef.current`; when either guard trips or the queue is empty
the call returns without touching the state. -/
def processAudioQueue (now : ℚ) (hasContext isProcessing : Bool)
    (st : SchedState) : DrainResult :=
  if isProcessing || !hasContext || st.queue.isEmpty then
    ⟨[], st, none⟩
  else
    let r := drainLoop now st.nextPlayTime st.queue
    ⟨r.1, ⟨r.2.2, r.2.1⟩, if r.2.2.isEmpty then none else some 100⟩

/-- `queueAudio` (lines 220-228) for an already-open playback context:
push the frame, then drain.  (Context re-creation, which resets the clock,
starts a new playback context and is outside a single-context trace.) -/
def queueAudio (now : ℚ) (frame : ℕ) (st : SchedState) : DrainResult :=
  processAudioQueue now true false ⟨st.queue ++ [frame], st.nextPlayTime⟩

/-- C2 counterexample input: 26 frames of 128 samples (0.208 s of audio),
the spec's own ">0.2s worth of frames in one burst" scenario. -/
def c2Burst : SchedState := ⟨List.replicate 26 128, 0⟩

set_option maxRecDepth 10000 in
/-- C2 — the claim as stated is false: the look-ahead test runs only after
`nextPlayTime` has been advanced, so a single drain pass can push the
clock past now + 0.2 s.  Feeding 0.208 s of 128-sample frames at now = 0
leaves `nextPlayTime` = 0.208 > 0.2, and (because the queue emptied on the
same pass) no second drain pass is scheduled at all. -/
theorem drain_pass_overshoots_cap :
    (processAudioQueue 0 true false c2Burst).state.nextPlayTime = 26 * 128 / 16000 ∧
    0 + 1 / 5 < (processAudioQueue 0 true false c2Burst).state.nextPlayTime ∧
    (processAudioQueue 0 true false c2Burst).scheduled.length = 26 ∧
    (processAudioQueue 0 true false c2Burst).redrainDelayMs = none := by
  refine ⟨?_, ?_, ?_, ?_⟩ <;>
    norm_num [processAudioQueue, drainLoop, c2Burst, frameDuration,
      SAMPLE_RATE, List.replicate]

lemma drainLoop_nextPlayTime_le (now npt d : ℚ) (q : List ℕ)
    (hd : ∀ f ∈ q, frameDuration f ≤ d) (h0 : 0 ≤ d) :
    (drainLoop now npt q).2.1 ≤ max (now + 1 / 5) npt + d := by
  induction q generalizing npt with
  | nil =>
    simp only [drainLoop]
    calc npt ≤ max (now + 1 / 5) npt := le_max_right _ _
      _ ≤ max (now + 1 / 5) npt + d := by linarith
  | cons f rest ih =>
    simp only [drainLoop]
    have hf : frameDuration f ≤ d := hd f (by simp)
    have hstart : max now npt ≤ max (now + 1 / 5) npt :=
      max_le_max (by linarith) le_rfl
    by_cases hbr : now + 1 / 5 < max now npt + frameDuration f
    · rw [if_pos hbr]
      simp only
      linarith [hstart, hf]
    · rw [if_neg hbr]
      simp only
      push_neg at hbr
      have := ih (max now npt + frameDuration f)
        (fun g hg => hd g (by simp [hg]))
      calc (drainLoop now (max now npt + frameDuration f) rest).2.1
          ≤ max (now + 1 / 5) (max now npt + frameDuration f) + d := this
        _ ≤ max (now + 1 / 5) npt + d := by
            have h1 : max now npt + frameDuration f ≤ now + 1 / 5 := hbr
            have h2 : max (now + 1 / 5) (max now npt + frameDuration f) = now + 1 / 5 :=
              max_eq_left h1
            rw [h2]
            have := le_max_left (now + 1 / 5) npt
            linarith

/-- C2 (amended) — bounded look-ahead of a drain pass: when every buffered
frame lasts at most `d` seconds, a single invocation of
`processAudioQueue` never advances `nextPlayTime` beyond
max(now + 0.2 s, entry clock) plus one frame duration `d` (the cap check
fires only after a frame is scheduled, so the overshoot is at most one
frame); and whenever frames remain buffered after the pass, the pass has
stopped early and a further drain pass is scheduled after a 100 ms delay
rather than scheduling all buffered frames at once. -/
theorem drain_pass_lookahead_bounded (now d : ℚ) (st : SchedState)
    (hd : ∀ f ∈ st.queue, frameDuration f ≤ d) (h0 : 0 ≤ d)
    (hnpt : st.nextPlayTime ≤ now + 1 / 5) :
    (processAudioQueue now true false st).state.nextPlayTime ≤ now + 1 / 5 + d ∧
    ((processAudioQueue now true false st).state.queue ≠ [] →
      (processAudioQueue now true false st).redrainDelayMs = some 100) := by
  unfold processAudioQueue
  by_cases hguard : (false || !true || st.queue.isEmpty) = true
  · rw [if_pos hguard]
    exact ⟨by simpa using le_trans hnpt (by linarith),
      fun hne => absurd (by simpa using hguard)
        (by simpa [List.isEmpty_iff] using hne)⟩
  · rw [if_neg hguard]
    constructor
    · have := drainLoop_nextPlayTime_le now st.nextPlayTime d st.queue hd h0
      simp only
      calc (drainLoop now st.nextPlayTime st.queue).2.1
          ≤ max (now + 1 / 5) st.nextPlayTime + d := this
        _ ≤ now + 1 / 5 + d := by
            rw [max_eq_left hnpt]
    · intro hne
      simp only at hne ⊢
      rw [if_neg (by simpa using hne)]

/-- Witness for C2's amended theorem: two 128-sample frames at now = 0. -/
theorem drain_pass_lookahead_bounded_witness :
    (processAudioQueue 0 true false ⟨[128, 128], 0⟩).state.nextPlayTime
      ≤ 0 + 1 / 5 + frameDuration 128 ∧
    ((processAudioQueue 0 true false ⟨[128, 128], 0⟩).state.queue ≠ [] →
      (processAudioQueue 0 true false ⟨[128, 128], 0⟩).redrainDelayMs = some 100) :=
  drain_pass_lookahead_bounded 0 (frameDuration 128) ⟨[128, 128], 0⟩
    (by intro f hf; simp at hf; simp [hf])
    (by unfold frameDuration SAMPLE_RATE; norm_num)
    (by norm_num)

/-- Structural facts about one drain pass: the segments it schedules are
chained (each start is at least the previous start plus duration), all
start at or after the entry clock, durations are nonnegative, the clock
never goes backwards, and the final clock sits at the end of the last
scheduled segment. -/
lemma drainLoop_sched_spec (now : ℚ) (q : List ℕ) : ∀ npt : ℚ,
    (drainLoop now npt q).1.Chain' (fun a b => a.1 + a.2 ≤ b.1) ∧
    (∀ s ∈ (drainLoop now npt q).1, npt ≤ s.1 ∧ 0 ≤ s.2) ∧
    npt ≤ (drainLoop now npt q).2.1 ∧
    (∀ l, (drainLoop now npt q).1.getLast? = some l →
      l.1 + l.2 ≤ (drainLoop now npt q).2.1) ∧
    ((drainLoop now npt q).1 = [] → (drainLoop now npt q).2.1 = npt) := by
  induction q with
  | nil =>
    intro npt
    simp [drainLoop]
  | cons f rest ih =>
    intro npt
    have hdur : 0 ≤ frameDuration f := by
      unfold frameDuration SAMPLE_RATE
      positivity
    have hstart : npt ≤ max now npt := le_max_right _ _
    simp only [drainLoop]
    by_cases hbr : now + 1 / 5 < max now npt + frameDuration f
    · rw [if_pos hbr]
      refine ⟨List.chain'_singleton _, ?_, by simp only; linarith, ?_, by simp⟩
      · intro s hs
        simp only [List.mem_singleton] at hs
        subst hs
        exact ⟨hstart, hdur⟩
      · intro l hl
        simp only [List.getLast?_singleton, Option.some.injEq] at hl
        subst hl
        simp only
        linarith
    · rw [if_neg hbr]
      obtain ⟨ihChain, ihMem, ihClock, ihLast, ihEmpty⟩ :=
        ih (max now npt + frameDuration f)
      have hnpt2 : npt ≤ max now npt + frameDuration f := by linarith
      refine ⟨?_, ?_, ?_, ?_, by simp⟩
      · rw [List.chain'_cons']
        refine ⟨?_, ihChain⟩
        intro y hy
        have hmem : y ∈ (drainLoop now (max now npt + frameDuration f) rest).1 :=
          List.mem_of_mem_head? hy
        simp only
        exact (ihMem y hmem).1
      · intro s hs
        simp only [List.mem_cons] at hs
        rcases hs with hs | hs
        · subst hs
          exact ⟨hstart, hdur⟩
        · have := ihMem s hs
          exact ⟨le_trans hnpt2 this.1, this.2⟩
      · simp only
        linarith
      · intro l hl
        simp only at hl
        rcases hrest : (drainLoop now (max now npt + frameDuration f) rest).1 with
          _ | ⟨a, t⟩
        · rw [hrest] at hl
          simp only [List.getLast?_singleton, Option.some.injEq] at hl
          subst hl
          have := ihEmpty hrest
          simp only [this]
          linarith
        · rw [hrest] at hl
          rw [List.getLast?_cons_cons] at hl
          have := ihLast l (by rw [hrest]; exact hl)
          simpa using this

/-- Asynchronous stimuli reaching the Playback Scheduler within one
playback context: an `agentAudio` frame arriving (which runs `queueAudio`:
push, then drain) or the 100 ms redrain timer firing (which runs
`processAudioQueue` directly).  `now` is the playback clock at the moment
the callback runs; nothing is assumed about arrival timing. -/
inductive SchedEvent
  | arrival (now : ℚ) (frame : ℕ)
  | timerDrain (now : ℚ)

/-- Scheduler state together with the full log of segments handed to
`source.start`, in order. -/
structure TraceState where
  sched : SchedState
  log : List (ℚ × ℚ)

def stepSched : TraceState → SchedEvent → TraceState
  | ⟨st, log⟩, .arrival now f =>
    let r := queueAudio now f st
    ⟨r.state, log ++ r.scheduled⟩
  | ⟨st, log⟩, .timerDrain now =>
    let r := processAudioQueue now true false st
    ⟨r.state, log ++ r.scheduled⟩

/-- A run within a single playback context: the context was created with
clock `npt0` (`nextPlayTimeRef.current = playbackContextRef.current.currentTime`)
and an empty queue. -/
def runSched (npt0 : ℚ) (evs : List SchedEvent) : TraceState :=
  evs.foldl stepSched ⟨⟨[], npt0⟩, []⟩

/-- Invariant tying the log to the scheduling clock. -/
def SchedInv (t : TraceState) : Prop :=
  t.log.Chain' (fun a b => a.1 + a.2 ≤ b.1) ∧
  (∀ s ∈ t.log, 0 ≤ s.2) ∧
  (∀ l, t.log.getLast? = some l → l.1 + l.2 ≤ t.sched.nextPlayTime)

lemma schedInv_drain (now : ℚ) (st : SchedState) (log : List (ℚ × ℚ))
    (h : SchedInv ⟨st, log⟩) :
    SchedInv ⟨(processAudioQueue now true false st).state,
      log ++ (processAudioQueue now true false st).scheduled⟩ := by
  obtain ⟨hChain, hDur, hLast⟩ := h
  unfold processAudioQueue
  by_cases hguard : (false || !true || st.queue.isEmpty) = true
  · rw [if_pos hguard]
    exact ⟨by simpa using hChain, by simpa using hDur, by simpa using hLast⟩
  · rw [if_neg hguard]
    obtain ⟨dChain, dMem, dClock, dLast, dEmpty⟩ :=
      drainLoop_sched_spec now st.queue st.nextPlayTime
    refine ⟨?_, ?_, ?_⟩
    · simp only
      rw [List.chain'_append]
      refine ⟨hChain, dChain, ?_⟩
      intro x hx y hy
      have hxl : log.getLast? = some x := hx
      have hym : y ∈ (drainLoop now st.nextPlayTime st.queue).1 :=
        List.mem_of_mem_head? hy
      exact le_trans (hLast x hxl) (dMem y hym).1
    · intro s hs
      simp only [List.mem_append] at hs
      rcases hs with hs | hs
      · exact hDur s hs
      · exact (dMem s hs).2
    · intro l hl
      simp only at hl ⊢
      rcases hrest : (drainLoop now st.nextPlayTime st.queue).1 with _ | ⟨a, t⟩
      · rw [hrest, List.append_nil] at hl
        rw [dEmpty hrest]
        exact hLast l hl
      · rw [hrest] at hl
        rw [List.getLast?_append_cons] at hl
        exact dLast l (by rw [hrest]; exact hl)

lemma schedInv_step (t : TraceState) (e : SchedEvent) (h : SchedInv t) :
    SchedInv (stepSched t e) := by
  obtain ⟨st, log⟩ := t
  cases e with
  | arrival now f =>
    have h' : SchedInv ⟨⟨st.queue ++ [f], st.nextPlayTime⟩, log⟩ :=
      ⟨h.1, h.2.1, h.2.2⟩
    exact schedInv_drain now ⟨st.queue ++ [f], st.nextPlayTime⟩ log h'
  | timerDrain now =>
    exact schedInv_drain now st log h

lemma chain'_starts_mono :
    ∀ (l : List (ℚ × ℚ)), l.Chain' (fun a b => a.1 + a.2 ≤ b.1) →
      (∀ s ∈ l, 0 ≤ s.2) → l.Chain' (fun a b => a.1 ≤ b.1)
  | [], _, _ => List.chain'_nil
  | [_], _, _ => List.chain'_singleton _
  | a :: b :: t, hc, hd => by
    rw [List.chain'_cons] at hc ⊢
    refine ⟨?_, chain'_starts_mono (b :: t) hc.2 ?_⟩
    · have ha : 0 ≤ a.2 := hd a (by simp)
      linarith [hc.1]
    · intro s hs
      exact hd s (by simp [hs])

lemma schedInv_foldl :
    ∀ (evs : List SchedEvent) (t0 : TraceState), SchedInv t0 →
      SchedInv (evs.foldl stepSched t0)
  | [], _, h0 => h0
  | e :: rest, t0, h0 =>
    schedInv_foldl rest (stepSched t0 e) (schedInv_step t0 e h0)

/-- C3 — scheduling monotonicity and no overlap: over every sequence of
frame arrivals and drain passes within one playback context, whatever the
interleaving of arrival times, the start times passed to `source.start`
are non-decreasing and each segment starts no earlier than the previous
segment's start plus its duration, so scheduled output segments never
overlap. -/
theorem scheduler_no_overlap (npt0 : ℚ) (evs : List SchedEvent) :
    (runSched npt0 evs).log.Chain' (fun a b => a.1 + a.2 ≤ b.1) ∧
    (runSched npt0 evs).log.Chain' (fun a b => a.1 ≤ b.1) := by
  have hinv : SchedInv (runSched npt0 evs) :=
    schedInv_foldl evs ⟨⟨[], npt0⟩, []⟩
      ⟨List.chain'_nil, by simp, by simp⟩
  exact ⟨hinv.1, chain'_starts_mono _ hinv.1 hinv.2.1⟩

/-! ### Session controller (src/unnamed/part_002, `Editor` component)

The component's refs and state hooks are gathered into one `Controller`
record; `stopSession` (lines 372-407) is split at its first `await`
(`await audioContext?.close()`, line 391) into a synchronous phase and an
awaited phase. -/

/-- Lifecycle state of a Web Audio `AudioContext`. -/
inductive CtxState
  | running
  | closed
  deriving DecidableEq, Repr

/-- Events dispatched by the flow client to the "message" listener
(lines 311-325): `{type: 'transcript', data: {text, is_final}}`,
`{type: 'error', data: {message}}`, or anything else (ignored). -/
inductive FlowEvent
  | transcript (text : String) (is_final : Bool)
  | errorEvent (message : String)
  | otherEvent
  deriving DecidableEq, Repr

/-- The `Editor` component's session-related refs and state. -/
structure Controller where
  /-- `abortControllerRef.current !== null` -/
  abortRefSet : Bool
  /-- the `signal` of the current start attempt's `AbortController` -/
  signalAborted : Bool
  /-- `messageHandlerRef.current !== null` and registered on `flowClient` -/
  msgListener : Bool
  /-- `audioHandlerRef.current !== null` and registered on `flowClient` -/
  audioListener : Bool
  /-- a conversation is open on the shared `flowClient` -/
  conversationOpen : Bool
  /-- `workletNodeRef.current !== null` -/
  workletNode : Bool
  /-- `mediaStream` state holds a stream -/
  streamHeld : Bool
  /-- the microphone tracks of that stream are live -/
  tracksLive : Bool
  /-- `audioContext` state (capture context) -/
  audioCtx : Option CtxState
  /-- `playbackContextRef.current` -/
  playbackCtx : Option CtxState
  /-- `audioQueueRef.current` -/
  audioQueue : List ℕ
  /-- `nextPlayTimeRef.current` -/
  nextPlayTime : ℚ
  /-- `isProcessingRef.current` -/
  isProcessing : Bool
  /-- `isListening` state -/
  isListening : Bool
  /-- `isConnecting` state -/
  isConnecting : Bool
  /-- `error` state -/
  errorMsg : Option String
  /-- `localPlainContent` state (the working plain-text context) -/
  plainContent : String
  deriving DecidableEq, Repr

/-- The `messageHandler` closure registered in `startSession`
(lines 311-325): a final transcript appends `' ' + text` to the working
plain-text context, an interim transcript only logs, an error event fills
the error slot (`errorData.message || 'Unknown error'`). -/
def messageHandler (c : Controller) : FlowEvent → Controller
  | FlowEvent.transcript text true =>
    { c with plainContent := c.plainContent ++ " " ++ text }
  | FlowEvent.transcript _ false => c
  | FlowEvent.errorEvent m =>
    let shown := if m = "" then "Unknown error" else m
    { c with errorMsg := some ("Flow client error: " ++ shown) }
  | FlowEvent.otherEvent => c

/-- Dispatch of a `"message"` transport event: the handler runs only while
it is registered on the flow client. -/
def deliverMessage (c : Controller) (ev : FlowEvent) : Controller :=
  if c.msgListener then messageHandler c ev else c

/-- Dispatch of an `"agentAudio"` transport event: the `audioHandler`
closure runs `queueAudio(event.data)` (lines 220-228 and 327-329) only
while it is registered. -/
def deliverAgentAudio (now : ℚ) (c : Controller) (frame : ℕ) : Controller :=
  if c.audioListener then
    let c1 := if c.playbackCtx = some CtxState.running then c
      else { c with playbackCtx := some CtxState.running, nextPlayTime := 0 }
    let r := processAudioQueue now true c1.isProcessing
      ⟨c1.audioQueue ++ [frame], c1.nextPlayTime⟩
    { c1 with audioQueue := r.state.queue, nextPlayTime := r.state.nextPlayTime }
  else c

/-- The text appended to the plain-text context by a sequence of events:
one space followed by the transcript text, for final transcripts only. -/
def appendedFinals : List FlowEvent → String
  | [] => ""
  | FlowEvent.transcript t true :: rest => " " ++ t ++ appendedFinals rest
  | _ :: rest => appendedFinals rest

/-- C6 — transcript finality: over every sequence of incoming events, the
working plain-text context grows exactly by `' ' + text` for each
`is_final = true` transcript, in order; interim transcripts and other
events never modify it.  In particular `{text:"hel", isFinal:false}`
followed by `{text:"hello", isFinal:true}` appends exactly `" hello"`. -/
theorem transcript_finality (c : Controller) (evs : List FlowEvent) :
    (evs.foldl messageHandler c).plainContent = c.plainContent ++ appendedFinals evs ∧
    (([FlowEvent.transcript "hel" false,
       FlowEvent.transcript "hello" true].foldl messageHandler c).plainContent
      = c.plainContent ++ " hello") := by
  have main : ∀ (evs : List FlowEvent) (c : Controller),
      (evs.foldl messageHandler c).plainContent = c.plainContent ++ appendedFinals evs := by
    intro evs
    induction evs with
    | nil =>
      intro c
      simp [appendedFinals]
    | cons e rest ih =>
      intro c
      cases e with
      | transcript t fin =>
        cases fin with
        | true =>
          simp only [List.foldl_cons, messageHandler, appendedFinals]
          rw [ih]
          simp [String.append_assoc]
        | false =>
          simp only [List.foldl_cons, messageHandler, appendedFinals]
          exact ih c
      | errorEvent m =>
        simp only [List.foldl_cons, messageHandler, appendedFinals]
        exact ih _
      | otherEvent =>
        simp only [List.foldl_cons, messageHandler, appendedFinals]
        exact ih c
  refine ⟨main evs c, ?_⟩
  rw [main]
  simp [appendedFinals]

/-- `AudioContext.close()`: resolves and moves the context to `closed`,
except on an already-closed context, where it rejects with
`InvalidStateError`. -/
def closeCtx : CtxState → Except String CtxState
  | CtxState.closed => Except.error "InvalidStateError"
  | CtxState.running => Except.ok CtxState.closed

/-- One guarded close block of `stopSession`
(`if (ctx?.state !== 'closed') { await ctx?.close(); ref = null }`):
a null reference passes the guard and the optional-chained close is a
no-op; an already-closed context is skipped (and its reference kept); a
running context is closed and its reference cleared. -/
def closeGuarded : Option CtxState → Except String (Option CtxState)
  | none => Except.ok none
  | some CtxState.closed => Except.ok (some CtxState.closed)
  | some CtxState.running =>
    match closeCtx CtxState.running with
    | Except.ok _ => Except.ok none
    | Except.error e => Except.error e

/-- `stopSession` lines 373-388, everything before the first `await`:
abort and drop the in-flight `AbortController`, unregister both flow
client listeners, end the conversation, and `stopRecording` (disconnect
the worklet, stop the microphone tracks, clear the stream). -/
def stopSync (c : Controller) : Controller :=
  let c1 := if c.abortRefSet then
    { c with signalAborted := true, abortRefSet := false } else c
  let c2 := { c1 with msgListener := false, audioListener := false,
                      conversationOpen := false }
  let c3 := { c2 with workletNode := false }
  if c3.streamHeld then { c3 with tracksLive := false, streamHeld := false } else c3

/-- `stopSession` lines 390-406, the awaited phase: close the capture and
playback contexts behind their `state !== 'closed'` guards, then clear the
queue, reset the clock and flags, and clear the error. -/
def stopAsync (c : Controller) : Except String Controller :=
  match closeGuarded c.audioCtx with
  | Except.error e => Except.error e
  | Except.ok aC2 =>
    match closeGuarded c.playbackCtx with
    | Except.error e => Except.error e
    | Except.ok pC2 =>
      Except.ok
        { c with audioCtx := aC2, playbackCtx := pC2, audioQueue := [],
                 nextPlayTime := 0, isProcessing := false,
                 isListening := false, errorMsg := none }

/-- `stopSession` (lines 372-407). -/
def stopSession (c : Controller) : Except String Controller :=
  stopAsync (stopSync c)

/-- Closed-form description of the state `stopSession` leaves behind. -/
def stopResult (c : Controller) : Controller :=
  { c with
    signalAborted := c.signalAborted || c.abortRefSet,
    abortRefSet := false, msgListener := false, audioListener := false,
    conversationOpen := false, workletNode := false,
    streamHeld := false, tracksLive := c.tracksLive && !c.streamHeld,
    audioCtx := if c.audioCtx = some CtxState.closed
      then some CtxState.closed else none,
    playbackCtx := if c.playbackCtx = some CtxState.closed
      then some CtxState.closed else none,
    audioQueue := [], nextPlayTime := 0, isProcessing := false,
    isListening := false, errorMsg := none }

/-- `stopSession` never raises: every close it performs is behind a
state guard, so it always resolves, to `stopResult`. -/
lemma stopSession_ok (c : Controller) :
    stopSession c = Except.ok (stopResult c) := by
  obtain ⟨aR, sA, mL, aL, cO, wN, sH, tL, aC, pC, q, npt, iP, iL, iC, eM, pc⟩ := c
  cases aR <;> cases sH <;>
    rcases aC with _ | aCs <;>
    rcases pC with _ | pCs <;>
    (try cases aCs) <;>
    (try cases pCs) <;>
    simp [stopSession, stopSync, stopAsync, closeGuarded, closeCtx, stopResult]

lemma stopResult_idem (c : Controller) : stopResult (stopResult c) = stopResult c := by
  obtain ⟨aR, sA, mL, aL, cO, wN, sH, tL, aC, pC, q, npt, iP, iL, iC, eM, pc⟩ := c
  rcases aC with _ | aCs <;>
    rcases pC with _ | pCs <;>
    (try cases aCs) <;>
    (try cases pCs) <;>
    simp [stopResult]

/-- C7 — idempotent teardown: assuming microphone tracks are only live
while the stream is held (true of every state the component reaches),
`stopSession` never raises, and afterwards the worklet reference is
cleared, the tracks are stopped and the stream released, both audio
contexts are closed or cleared (the close being skipped on an
already-closed context), the playback queue is empty, the clock is reset
to 0 — and running `stopSession` again succeeds and changes nothing. -/
theorem stop_idempotent_teardown (c : Controller)
    (h : c.tracksLive = true → c.streamHeld = true) :
    ∃ c', stopSession c = Except.ok c' ∧
      c'.workletNode = false ∧ c'.streamHeld = false ∧ c'.tracksLive = false ∧
      (c'.audioCtx = none ∨ c'.audioCtx = some CtxState.closed) ∧
      (c'.playbackCtx = none ∨ c'.playbackCtx = some CtxState.closed) ∧
      c'.audioQueue = [] ∧ c'.nextPlayTime = 0 ∧ c'.isListening = false ∧
      stopSession c' = Except.ok c' := by
  refine ⟨stopResult c, stopSession_ok c, rfl, rfl, ?_, ?_, ?_, rfl, rfl, rfl, ?_⟩
  · simp only [stopResult]
    cases htl : c.tracksLive with
    | false => simp
    | true => simp [h htl]
  · simp only [stopResult]
    split <;> simp
  · simp only [stopResult]
    split <;> simp
  · rw [stopSession_ok (stopResult c), stopResult_idem c]

/-- Witness for C7 at a fully-populated active session state. -/
theorem stop_idempotent_teardown_witness :
    ∃ c', stopSession
        ⟨true, false, true, true, true, true, true, true,
         some CtxState.running, some CtxState.running, [128], 1 / 2, false,
         true, false, none, "ctx"⟩ = Except.ok c' ∧
      c'.workletNode = false ∧ c'.streamHeld = false ∧ c'.tracksLive = false ∧
      (c'.audioCtx = none ∨ c'.audioCtx = some CtxState.closed) ∧
      (c'.playbackCtx = none ∨ c'.playbackCtx = some CtxState.closed) ∧
      c'.audioQueue = [] ∧ c'.nextPlayTime = 0 ∧ c'.isListening = false ∧
      stopSession c' = Except.ok c' :=
  stop_idempotent_teardown
    ⟨true, false, true, true, true, true, true, true,
     some CtxState.running, some CtxState.running, [128], 1 / 2, false,
     true, false, none, "ctx"⟩ (fun _ => rfl)

/-- C8 — synchronous listener unregistration: the first `await` of
`stopSession` is the audio-context close, and everything before it is the
synchronous phase `stopSync` (`stopSession = stopAsync ∘ stopSync`); that
phase already has both flow-client listeners unregistered, so a transport
event (`"message"` or `"agentAudio"`) delivered at or after the first
suspension point leaves the component state untouched. -/
theorem listeners_unregistered_before_first_await (c : Controller) :
    stopSession c = stopAsync (stopSync c) ∧
    (stopSync c).msgListener = false ∧
    (stopSync c).audioListener = false ∧
    (∀ ev, deliverMessage (stopSync c) ev = stopSync c) ∧
    (∀ now frame, deliverAgentAudio now (stopSync c) frame = stopSync c) := by
  have hma : (stopSync c).msgListener = false ∧ (stopSync c).audioListener = false := by
    obtain ⟨aR, sA, mL, aL, cO, wN, sH, tL, aC, pC, q, npt, iP, iL, iC, eM, pc⟩ := c
    cases aR <;> cases sH <;> simp [stopSync]
  obtain ⟨hm, ha⟩ := hma
  refine ⟨rfl, hm, ha, ?_, ?_⟩
  · intro ev
    unfold deliverMessage
    rw [hm]
    simp
  · intro now frame
    unfold deliverAgentAudio
    rw [ha]
    simp

/-! ### `startSession` / `stopSession` interleavings (C1)

`startSession` (lines 274-370) suspends at `await`s; between suspensions
it runs atomically on the event loop.  It is embedded as a program counter
over its suspension points, with the environment choosing each await's
outcome and a `stopCall` action runnable at any suspension point.  The
`AbortController` signal created at the top of `startSession` is attached
only to the credential `fetch`; when the signal has been aborted, that
fetch (and the body read) settles as an `AbortError` regardless of the
network outcome.  No abort check exists after `startConversation` or
`startRecording`. -/

/-- Suspension points of an in-flight `startSession` call. -/
inductive StartPC
  | idle
  /-- suspended at `await fetch(...)` / `await resp.json()` (lines 288-298) -/
  | awaitFetch
  /-- suspended at `await flowClient.startConversation(...)` (line 337) -/
  | awaitConversation
  /-- suspended at `await startRecording(context)` (line 353) -/
  | awaitRecording
  deriving DecidableEq, Repr

/-- Environment outcome of the credential fetch (when not aborted). -/
inductive FetchOutcome
  | success
  | failure (msg : String)
  deriving DecidableEq, Repr

/-- One atomic turn of the event loop touching the session. -/
inductive Action
  /-- the user starts a session: `startSession` runs up to its fetch await -/
  | beginStart
  /-- the pending credential fetch settles -/
  | fetchResolves (r : FetchOutcome)
  /-- the pending `startConversation` handshake settles -/
  | conversationResolves (ok : Bool)
  /-- the pending `startRecording` (getUserMedia + worklet) settles -/
  | recordingResolves (ok : Bool)
  /-- `stopSession` runs to completion -/
  | stopCall
  deriving DecidableEq, Repr

/-- Component state plus the in-flight `startSession`'s program counter. -/
structure System where
  ctrl : Controller
  pc : StartPC
  deriving DecidableEq, Repr

/-- `stopSession` as executed on the event loop (it always resolves, per
`stopSession_ok`; a rejection would propagate, which never happens). -/
def stopRun (c : Controller) : Controller :=
  match stopSession c with
  | Except.ok c' => c'
  | Except.error _ => c

def stepStart (s : System) (a : Action) : System :=
  match a, s.pc with
  | Action.beginStart, StartPC.idle =>
    let c := stopRun s.ctrl
    ⟨{ c with isConnecting := true, errorMsg := none,
              abortRefSet := true, signalAborted := false },
     StartPC.awaitFetch⟩
  | Action.beginStart, _ => s
  | Action.fetchResolves r, StartPC.awaitFetch =>
    if s.ctrl.signalAborted then
      ⟨{ s.ctrl with isListening := false, isConnecting := false,
                     abortRefSet := false },
       StartPC.idle⟩
    else
      match r with
      | FetchOutcome.success =>
        if s.ctrl.playbackCtx = some CtxState.closed then
          ⟨{ s.ctrl with audioCtx := some CtxState.running,
                         errorMsg := some "InvalidStateError",
                         isListening := false, isConnecting := false,
                         abortRefSet := false },
           StartPC.idle⟩
        else
          ⟨{ s.ctrl with audioCtx := some CtxState.running,
                         playbackCtx := some CtxState.running,
                         nextPlayTime := 0, audioQueue := [],
                         msgListener := true, audioListener := true },
           StartPC.awaitConversation⟩
      | FetchOutcome.failure msg =>
        ⟨{ s.ctrl with errorMsg := some msg, isListening := false,
                       isConnecting := false, abortRefSet := false },
         StartPC.idle⟩
  | Action.fetchResolves _, _ => s
  | Action.conversationResolves ok, StartPC.awaitConversation =>
    if ok then
      ⟨{ s.ctrl with conversationOpen := true }, StartPC.awaitRecording⟩
    else
      ⟨{ s.ctrl with errorMsg := some "Failed to start conversation",
                     isListening := false, isConnecting := false,
                     abortRefSet := false },
       StartPC.idle⟩
  | Action.conversationResolves _, _ => s
  | Action.recordingResolves ok, StartPC.awaitRecording =>
    if ok then
      ⟨{ s.ctrl with workletNode := true, streamHeld := true,
                     tracksLive := true, isListening := true,
                     errorMsg := none, isConnecting := false,
                     abortRefSet := false },
       StartPC.idle⟩
    else
      ⟨{ s.ctrl with errorMsg := some "Failed to start recording",
                     isListening := false, isConnecting := false,
                     abortRefSet := false },
       StartPC.idle⟩
  | Action.recordingResolves _, _ => s
  | Action.stopCall, _ => ⟨stopRun s.ctrl, s.pc⟩

def runStart (s : System) (acts : List Action) : System :=
  acts.foldl stepStart s

/-- A freshly mounted component: no resources, no listeners, idle. -/
def initController : Controller :=
  ⟨false, false, false, false, false, false, false, false,
   none, none, [], 0, false, false, false, none, ""⟩

def initSystem : System := ⟨initController, StartPC.idle⟩

/-- C1 counterexample — stop does not always win: start a session, let the
credential fetch succeed, then run `stopSession` while the start is still
in flight (`isConnecting` is still true, the conversation handshake is
pending); when the handshake and recording subsequently succeed, the
stopped session still transitions to the listening state, holding the
microphone stream. -/
theorem stop_does_not_always_win :
    (runStart initSystem
      [Action.beginStart, Action.fetchResolves FetchOutcome.success]).ctrl.isConnecting
        = true ∧
    (runStart initSystem
      [Action.beginStart, Action.fetchResolves FetchOutcome.success]).pc
        = StartPC.awaitConversation ∧
    (runStart initSystem
      [Action.beginStart, Action.fetchResolves FetchOutcome.success,
       Action.stopCall, Action.conversationResolves true,
       Action.recordingResolves true]).ctrl.isListening = true ∧
    (runStart initSystem
      [Action.beginStart, Action.fetchResolves FetchOutcome.success,
       Action.stopCall, Action.conversationResolves true,
       Action.recordingResolves true]).ctrl.streamHeld = true := by
  refine ⟨rfl, rfl, rfl, rfl⟩

/-- States reachable after a stop has poisoned the in-flight start before
its credential fetch resolved. -/
def StopSafe (s : System) : Prop :=
  s.ctrl.isListening = false ∧ s.ctrl.errorMsg = none ∧
  s.ctrl.msgListener = false ∧ s.ctrl.audioListener = false ∧
  s.ctrl.workletNode = false ∧ s.ctrl.streamHeld = false ∧
  s.ctrl.audioCtx = none ∧ s.ctrl.playbackCtx = none ∧
  (s.pc = StartPC.awaitFetch → s.ctrl.signalAborted = true) ∧
  s.pc ≠ StartPC.awaitConversation ∧ s.pc ≠ StartPC.awaitRecording

lemma stopRun_eq (c : Controller) : stopRun c = stopResult c := by
  unfold stopRun
  rw [stopSession_ok c]

lemma stopSafe_step (s : System) (a : Action) (hs : StopSafe s)
    (ha : a ≠ Action.beginStart) : StopSafe (stepStart s a) := by
  obtain ⟨c, pc⟩ := s
  obtain ⟨hL, hE, hM, hA, hW, hS, hAC, hPC, hSig, hC, hR⟩ := hs
  dsimp only at hL hE hM hA hW hS hAC hPC hSig hC hR
  cases a with
  | beginStart => exact absurd rfl ha
  | fetchResolves r =>
    cases pc with
    | idle => exact ⟨hL, hE, hM, hA, hW, hS, hAC, hPC, hSig, hC, hR⟩
    | awaitFetch =>
      have hsig : c.signalAborted = true := hSig rfl
      have hstep : stepStart ⟨c, StartPC.awaitFetch⟩ (Action.fetchResolves r) =
          ⟨{ c with isListening := false, isConnecting := false,
                    abortRefSet := false }, StartPC.idle⟩ := by
        simp [stepStart, hsig]
      rw [hstep]
      exact ⟨rfl, hE, hM, hA, hW, hS, hAC, hPC,
        fun h => StartPC.noConfusion h,
        fun h => StartPC.noConfusion h,
        fun h => StartPC.noConfusion h⟩
    | awaitConversation => exact absurd rfl hC
    | awaitRecording => exact absurd rfl hR
  | conversationResolves ok =>
    cases pc with
    | idle => exact ⟨hL, hE, hM, hA, hW, hS, hAC, hPC, hSig, hC, hR⟩
    | awaitFetch => exact ⟨hL, hE, hM, hA, hW, hS, hAC, hPC, hSig, hC, hR⟩
    | awaitConversation => exact absurd rfl hC
    | awaitRecording => exact absurd rfl hR
  | recordingResolves ok =>
    cases pc with
    | idle => exact ⟨hL, hE, hM, hA, hW, hS, hAC, hPC, hSig, hC, hR⟩
    | awaitFetch => exact ⟨hL, hE, hM, hA, hW, hS, hAC, hPC, hSig, hC, hR⟩
    | awaitConversation => exact absurd rfl hC
    | awaitRecording => exact absurd rfl hR
  | stopCall =>
    have hstep : stepStart ⟨c, pc⟩ Action.stopCall = ⟨stopRun c, pc⟩ := by
      cases pc <;> rfl
    rw [hstep, stopRun_eq]
    refine ⟨rfl, rfl, rfl, rfl, rfl, rfl, ?_, ?_, fun h => ?_, hC, hR⟩
    · simp [stopResult, hAC]
    · simp [stopResult, hPC]
    · have hsig : c.signalAborted = true := hSig h
      simp [stopResult, hsig]

lemma stopSafe_run (acts : List Action) (s : System) (hs : StopSafe s)
    (hacts : Action.beginStart ∉ acts) : StopSafe (runStart s acts) := by
  induction acts generalizing s with
  | nil => exact hs
  | cons a rest ih =>
    have hne : a ≠ Action.beginStart := fun h => hacts (h ▸ List.mem_cons_self a rest)
    have hrest : Action.beginStart ∉ rest := fun h => hacts (List.mem_cons_of_mem a h)
    exact ih (stepStart s a) (stopSafe_step s a hs hne) hrest

/-- The state reached by: `startSession` begins (and suspends at its
credential fetch), then `stopSession` runs before the fetch resolves. -/
def afterStopDuringFetch : System :=
  runStart initSystem [Action.beginStart, Action.stopCall]

/-- C1 (amended) — stop wins over the credential-fetch window: when
`stopSession` runs while the pending `startSession` is suspended at its
credential fetch, then whatever happens afterwards — the fetch settling
with success or failure (it settles as an `AbortError`, which is caught
and never surfaced), handshake or recording outcomes, further stops — the
session never reaches the listening state, no error is ever surfaced, and
no listeners, worklet, stream, or audio contexts are held.  (A stop
issued after the fetch has already resolved does not enjoy this: see the
counterexample.) -/
theorem stop_wins_during_credential_fetch (post : List Action)
    (hpost : Action.beginStart ∉ post) :
    (runStart afterStopDuringFetch post).ctrl.isListening = false ∧
    (runStart afterStopDuringFetch post).ctrl.errorMsg = none ∧
    (runStart afterStopDuringFetch post).ctrl.msgListener = false ∧
    (runStart afterStopDuringFetch post).ctrl.audioListener = false ∧
    (runStart afterStopDuringFetch post).ctrl.workletNode = false ∧
    (runStart afterStopDuringFetch post).ctrl.streamHeld = false ∧
    (runStart afterStopDuringFetch post).ctrl.audioCtx = none ∧
    (runStart afterStopDuringFetch post).ctrl.playbackCtx = none := by
  have h0 : StopSafe afterStopDuringFetch := by
    refine ⟨rfl, rfl, rfl, rfl, rfl, rfl, rfl, rfl, ?_, ?_, ?_⟩ <;> decide
  have hf := stopSafe_run post afterStopDuringFetch h0 hpost
  exact ⟨hf.1, hf.2.1, hf.2.2.1, hf.2.2.2.1, hf.2.2.2.2.1,
    hf.2.2.2.2.2.1, hf.2.2.2.2.2.2.1, hf.2.2.2.2.2.2.2.1⟩

/-- Witness for C1's amended theorem: the aborted fetch settles
"successfully", the environment then would let handshake and recording
succeed — the stopped session still never reaches listening. -/
theorem stop_wins_during_credential_fetch_witness :
    (runStart afterStopDuringFetch
      [Action.fetchResolves FetchOutcome.success,
       Action.conversationResolves true,
       Action.recordingResolves true]).ctrl.isListening = false ∧
    (runStart afterStopDuringFetch
      [Action.fetchResolves FetchOutcome.success,
       Action.conversationResolves true,
       Action.recordingResolves true]).ctrl.errorMsg = none ∧
    (runStart afterStopDuringFetch
      [Action.fetchResolves FetchOutcome.success,
       Action.conversationResolves true,
       Action.recordingResolves true]).ctrl.msgListener = false ∧
    (runStart afterStopDuringFetch
      [Action.fetchResolves FetchOutcome.success,
       Action.conversationResolves true,
       Action.recordingResolves true]).ctrl.audioListener = false ∧
    (runStart afterStopDuringFetch
      [Action.fetchResolves FetchOutcome.success,
       Action.conversationResolves true,
       Action.recordingResolves true]).ctrl.workletNode = false ∧
    (runStart afterStopDuringFetch
      [Action.fetchResolves FetchOutcome.success,
       Action.conversationResolves true,
       Action.recordingResolves true]).ctrl.streamHeld = false ∧
    (runStart afterStopDuringFetch
      [Action.fetchResolves FetchOutcome.success,
       Action.conversationResolves true,
       Action.recordingResolves true]).ctrl.audioCtx = none ∧
    (runStart afterStopDuringFetch
      [Action.fetchResolves FetchOutcome.success,
       Action.conversationResolves true,
       Action.recordingResolves true]).ctrl.playbackCtx = none :=
  stop_wins_during_credential_fetch
    [Action.fetchResolves FetchOutcome.success,
     Action.conversationResolves true,
     Action.recordingResolves true]
    (by intro h; simp at h)

/-! ### Module persistence routes (src/server/routes/modules.ts)

The SQLite table is embedded as a list of rows; the handlers become pure
functions from the table to a status and a new table.  Timestamps are
abstract naturals. -/

/-- A row of the `modules` table (see `initializeDatabase` and the
`Module` interface of the router). -/
structure Module where
  id : ℕ
  title : String
  content : String
  plain_content : String
  style : String
  persona : String
  display_order : ℕ
  created_at : ℕ
  updated_at : ℕ
  deriving DecidableEq, Repr

/-- A PUT /api/modules/:id body: each updatable field either present or
absent (the router tests `req.body.x !== undefined` for exactly these
five fields). -/
structure PutBody where
  title : Option String
  content : Option String
  plain_content : Option String
  style : Option String
  persona : Option String
  deriving DecidableEq, Repr

/-- The UPDATE statement the router assembles: one `x = ?` per present
field, plus `updated_at = CURRENT_TIMESTAMP`, applied to a row. -/
def applyPut (now : ℕ) (b : PutBody) (m : Module) : Module :=
  { m with
    title := b.title.getD m.title,
    content := b.content.getD m.content,
    plain_content := b.plain_content.getD m.plain_content,
    style := b.style.getD m.style,
    persona := b.persona.getD m.persona,
    updated_at := now }

/-- `router.put('/:id')` (lines 66-111): SELECT the module; 404 when it
does not exist; otherwise run the partial UPDATE (`WHERE id = ?`) and
respond 200 with the updated row. -/
def putModule (now : ℕ) (db : List Module) (mid : ℕ) (b : PutBody) :
    ℕ × List Module :=
  match db.find? (fun m => m.id == mid) with
  | none => (404, db)
  | some _ =>
    (200, db.map (fun m => if m.id = mid then applyPut now b m else m))

/-- C9 — partial update frames the module record: on PUT, exactly the
fields present in the body among title, content, plain_content, style and
persona change (plus `updated_at`); absent fields and all other columns
(`id`, `display_order`, `created_at`) keep their previous values; rows
with a different id are untouched; and when no module with the id exists
the response is 404 and no row is modified. -/
theorem put_module_partial_update (now : ℕ) (db : List Module) (mid : ℕ)
    (b : PutBody) :
    ((∀ m ∈ db, m.id ≠ mid) → putModule now db mid b = (404, db)) ∧
    ((∃ m ∈ db, m.id = mid) →
      (putModule now db mid b).1 = 200 ∧
      List.Forall₂ (fun old new =>
          (old.id ≠ mid → new = old) ∧
          (old.id = mid →
            new.id = old.id ∧
            new.title = b.title.getD old.title ∧
            new.content = b.content.getD old.content ∧
            new.plain_content = b.plain_content.getD old.plain_content ∧
            new.style = b.style.getD old.style ∧
            new.persona = b.persona.getD old.persona ∧
            new.display_order = old.display_order ∧
            new.created_at = old.created_at ∧
            new.updated_at = now))
        db (putModule now db mid b).2) := by
  constructor
  · intro h
    have hfind : db.find? (fun m => m.id == mid) = none := by
      rw [List.find?_eq_none]
      intro m hm
      simpa using h m hm
    unfold putModule
    rw [hfind]
  · rintro ⟨m0, hm0, hid⟩
    have hfind : db.find? (fun m => m.id == mid) ≠ none := by
      intro hnone
      rw [List.find?_eq_none] at hnone
      exact hnone m0 hm0 (by simpa using hid)
    unfold putModule
    rcases hf : db.find? (fun m => m.id == mid) with _ | mf
    · exact absurd hf hfind
    · rw [hf]
      dsimp only
      refine ⟨rfl, ?_⟩
      rw [List.forall₂_map_right_iff, List.forall₂_same]
      intro m _
      constructor
      · intro hne
        rw [if_neg hne]
      · intro heq
        rw [if_pos heq]
        simp [applyPut]

/-- Witness for C9: a one-row table, updating only the title. -/
theorem put_module_partial_update_witness :
    (putModule 7 [⟨1, "t", "c", "p", "s", "q", 1, 0, 0⟩] 1
      ⟨some "t2", none, none, none, none⟩).1 = 200 ∧
    List.Forall₂ (fun old new =>
        (old.id ≠ 1 → new = old) ∧
        (old.id = 1 →
          new.id = old.id ∧
          new.title = (some "t2").getD old.title ∧
          new.content = (none : Option String).getD old.content ∧
          new.plain_content = (none : Option String).getD old.plain_content ∧
          new.style = (none : Option String).getD old.style ∧
          new.persona = (none : Option String).getD old.persona ∧
          new.display_order = old.display_order ∧
          new.created_at = old.created_at ∧
          new.updated_at = 7))
      [⟨1, "t", "c", "p", "s", "q", 1, 0, 0⟩]
      (putModule 7 [⟨1, "t", "c", "p", "s", "q", 1, 0, 0⟩] 1
        ⟨some "t2", none, none, none, none⟩).2 :=
  (put_module_partial_update 7 [⟨1, "t", "c", "p", "s", "q", 1, 0, 0⟩] 1
    ⟨some "t2", none, none, none, none⟩).2
    ⟨⟨1, "t", "c", "p", "s", "q", 1, 0, 0⟩, by simp, rfl⟩

/-- The effect of the reorder loop's UPDATE statements
(`display_order = i + 1 WHERE id = orderedIds[i]`), run sequentially from
position `pos`. -/
def reorderApply : ℕ → List Module → List ℕ → List Module
  | _, db, [] => db
  | pos, db, j :: rest =>
    reorderApply (pos + 1)
      (db.map (fun m => if m.id = j then { m with display_order := pos } else m))
      rest

/-- The reorder transaction body: each UPDATE may fail (`failAt = some k`
makes the k-th statement fail, 0-based), aborting the transaction. -/
def runReorderTx : ℕ → List Module → List ℕ → Option ℕ → Except Unit (List Module)
  | _, db, [], _ => Except.ok db
  | pos, db, j :: rest, f =>
    if f = some 0 then Except.error ()
    else runReorderTx (pos + 1)
      (db.map (fun m => if m.id = j then { m with display_order := pos } else m))
      rest (f.map (fun k => k - 1))

/-- `SELECT * FROM modules ORDER BY display_order ASC`. -/
def sortByOrder (db : List Module) : List Module :=
  db.mergeSort (fun a b => a.display_order ≤ b.display_order)

/-- Outcome of POST /api/modules/reorder: HTTP status, table contents
after the request, and the JSON response body. -/
structure ReorderResult where
  status : ℕ
  table : List Module
  response : List Module
  deriving DecidableEq, Repr

/-- `router.post('/reorder')` (lines 114-136): BEGIN TRANSACTION, one
UPDATE per ordered id, COMMIT, then read the table back ordered by
`display_order`; on any failure, ROLLBACK restores the table and the
response is a 500 error. -/
def reorderModules (db : List Module) (ids : List ℕ) (failAt : Option ℕ) :
    ReorderResult :=
  match runReorderTx 1 db ids failAt with
  | Except.error _ => ⟨500, db, []⟩
  | Except.ok db2 => ⟨200, db2, sortByOrder db2⟩

lemma runReorderTx_fail :
    ∀ (ids : List ℕ) (pos : ℕ) (db : List Module) (k : ℕ),
      k < ids.length → runReorderTx pos db ids (some k) = Except.error () := by
  intro ids
  induction ids with
  | nil =>
    intro pos db k h
    simp at h
  | cons j rest ih =>
    intro pos db k h
    cases k with
    | zero => simp [runReorderTx]
    | succ k =>
      rw [runReorderTx, if_neg (by simp)]
      have : (some (k + 1)).map (fun k => k - 1) = some k := by simp
      rw [this]
      exact ih (pos + 1) _ k (by simpa using h)

lemma runReorderTx_none :
    ∀ (ids : List ℕ) (pos : ℕ) (db : List Module),
      runReorderTx pos db ids none = Except.ok (reorderApply pos db ids) := by
  intro ids
  induction ids with
  | nil =>
    intro pos db
    simp [runReorderTx, reorderApply]
  | cons j rest ih =>
    intro pos db
    rw [runReorderTx, if_neg (by simp)]
    simpa [reorderApply] using ih (pos + 1) _

/-- Rows whose id is not among the remaining ids pass through the
remaining UPDATEs unchanged. -/
lemma reorderApply_untouched :
    ∀ (ids : List ℕ) (pos : ℕ) (db : List Module) (m : Module),
      m ∈ reorderApply pos db ids → m.id ∉ ids → m ∈ db := by
  intro ids
  induction ids with
  | nil =>
    intro pos db m hm _
    simpa [reorderApply] using hm
  | cons j rest ih =>
    intro pos db m hm hni
    have hnj : m.id ≠ j := fun h => hni (by simp [h])
    have hnr : m.id ∉ rest := fun h => hni (by simp [h])
    have hm' : m ∈ db.map
        (fun m => if m.id = j then { m with display_order := pos } else m) :=
      ih (pos + 1) _ m (by simpa [reorderApply] using hm) hnr
    rcases List.mem_map.mp hm' with ⟨m0, hm0, heq⟩
    by_cases h0 : m0.id = j
    · rw [if_pos h0] at heq
      have : m.id = j := by rw [← heq]; exact h0
      exact absurd this hnj
    · rw [if_neg h0] at heq
      exact heq ▸ hm0

/-- After the whole UPDATE sequence, a row carrying the id at position
`i` of the (duplicate-free) id list has display_order `pos + i`. -/
lemma reorderApply_positional :
    ∀ (ids : List ℕ) (pos : ℕ) (db : List Module), ids.Nodup →
      ∀ (i : ℕ) (hi : i < ids.length), ∀ m ∈ reorderApply pos db ids,
        m.id = ids.get ⟨i, hi⟩ → m.display_order = pos + i := by
  intro ids
  induction ids with
  | nil =>
    intro pos db _ i hi
    simp at hi
  | cons j rest ih =>
    intro pos db hnd i hi m hm hid
    rw [List.nodup_cons] at hnd
    cases i with
    | zero =>
      simp only [List.get] at hid
      have hm' : m ∈ reorderApply (pos + 1)
          (db.map (fun m => if m.id = j then { m with display_order := pos } else m))
          rest := by simpa [reorderApply] using hm
      have hmem : m ∈ db.map
          (fun m => if m.id = j then { m with display_order := pos } else m) :=
        reorderApply_untouched rest (pos + 1) _ m hm' (hid ▸ hnd.1)
      rcases List.mem_map.mp hmem with ⟨m0, _, heq⟩
      by_cases h0 : m0.id = j
      · rw [if_pos h0] at heq
        rw [← heq]
        simp
      · rw [if_neg h0] at heq
        rw [← heq] at hid
        exact absurd hid h0
    | succ i =>
      have hm' : m ∈ reorderApply (pos + 1)
          (db.map (fun m => if m.id = j then { m with display_order := pos } else m))
          rest := by simpa [reorderApply] using hm
      have := ih (pos + 1) _ hnd.2 i (by simpa using hi) m hm'
        (by simpa using hid)
      omega

/-- C10 — reorder is atomic and positional: every UPDATE runs inside one
transaction, so any failure rolls the table back unchanged (and the
response is a 500); on success the module whose id sits at position i of
`orderedIds` (0-based) ends with `display_order = i + 1`, and the 200
response is the full updated table sorted by `display_order` ascending. -/
theorem reorder_atomic_positional (db : List Module) (ids : List ℕ)
    (failAt : Option ℕ) (hids : ids.Nodup) :
    (∀ k, failAt = some k → k < ids.length →
      reorderModules db ids failAt = ⟨500, db, []⟩) ∧
    ((reorderModules db ids none).status = 200 ∧
      (∀ (i : ℕ) (hi : i < ids.length), ∀ m ∈ (reorderModules db ids none).table,
        m.id = ids.get ⟨i, hi⟩ → m.display_order = i + 1) ∧
      (reorderModules db ids none).response.Sorted
        (fun a b => a.display_order ≤ b.display_order) ∧
      (reorderModules db ids none).response.Perm
        (reorderModules db ids none).table) := by
  have hok : reorderModules db ids none =
      ⟨200, reorderApply 1 db ids, sortByOrder (reorderApply 1 db ids)⟩ := by
    unfold reorderModules
    rw [runReorderTx_none ids 1 db]
  constructor
  · intro k hk hlt
    subst hk
    unfold reorderModules
    rw [runReorderTx_fail ids 1 db k hlt]
  · rw [hok]
    refine ⟨rfl, ?_, ?_, ?_⟩
    · intro i hi m hm hid
      have := reorderApply_positional ids 1 db hids i hi m hm hid
      omega
    · have hs : List.Pairwise
          (fun a b : Module => decide (a.display_order ≤ b.display_order) = true)
          ((reorderApply 1 db ids).mergeSort
            (fun a b => decide (a.display_order ≤ b.display_order))) :=
        List.sorted_mergeSort
          (fun (a b c : Module) h1 h2 => by
            simp only [decide_eq_true_eq] at h1 h2 ⊢
            omega)
          (fun (a b : Module) => by
            simp only [Bool.or_eq_true, decide_eq_true_eq]
            omega)
          (reorderApply 1 db ids)
      simp only [sortByOrder]
      exact hs.imp (fun h => of_decide_eq_true h)
    · simp only [sortByOrder]
      exact List.mergeSort_perm _ _

/-- Witness for C10: a failing transaction on a two-row table leaves it
unchanged with a 500 status. -/
theorem reorder_atomic_positional_witness :
    reorderModules
      [⟨1, "a", "", "", "", "", 1, 0, 0⟩, ⟨2, "b", "", "", "", "", 2, 0, 0⟩]
      [2, 1] (some 0) =
    ⟨500, [⟨1, "a", "", "", "", "", 1, 0, 0⟩, ⟨2, "b", "", "", "", "", 2, 0, 0⟩],
      []⟩ :=
  (reorder_atomic_positional
    [⟨1, "a", "", "", "", "", 1, 0, 0⟩, ⟨2, "b", "", "", "", "", 2, 0, 0⟩]
    [2, 1] (some 0) (by decide)).1 0 rfl (by decide)

end FlowHub
